import Mathlib

/-!
Verification of the entity-canonicalization engine and the recommendation
aggregator of the xiphi repository.

The aggregator is embedded from
`src/app/api/v1/endpoints/people.py` (`get_recommendations_attendee` and its
inner `add_rec_data`), the canonicalizer from
`src/app/services/process.py` (`find_or_create_skill_interest`,
`find_or_create_company`, `find_or_create_job_role`,
`find_or_create_location`).

Modelling conventions:
* Python floats are modelled as rationals (`ℚ`); the score arithmetic of the
  source involves only sums and products of decimal literals.
* A Python `dict` keyed by user id (insertion ordered) is modelled as an
  association list in insertion order; updating an existing key rewrites the
  (unique) matching entry in place, a new key is appended at the end.
* `list.sort(key=..., reverse=True)` (Timsort, stable) is modelled by a stable
  insertion sort on the negated key; any two stable sorts by the same key
  coincide.
* `list(set(xs))` is modelled by `List.dedup` — same members, each kept once
  (the iteration order of a Python set is unspecified, claims about it only
  concern membership and multiplicity).
* The SQL catalog tables are lists of rows; `scalars().first()` on a filtered
  select is `List.find?`; `ORDER BY embedding.l2_distance(v) LIMIT 5` is a
  stable sort by squared L2 distance followed by `take 5` (ranking by the
  squared distance coincides with ranking by the distance); `db.add` appends a
  row; `uuid.uuid4()` fresh-id generation is modelled by a `nextId` counter on
  the catalog state.
* The external embedding provider (`generate_embedding`) is a parameter
  `embed : String → List ℚ` of every canonicalizer function.
-/

/-- One row emitted by a category fetch of `PeopleService`
(`get_demographics_based_recommendations`, `get_similar_interests_recommendations`,
`get_similar_skills_recommendations`), as consumed by `add_rec_data` in
`people.py`: `rec['UserID']`, `rec['RecommendedUser']`, `rec.get('Role')`,
`rec.get('YearsExperience')`, `rec['SimilarityScore']` and the five optional
evidence lists (a missing key is the empty list). -/
structure RecRow where
  UserID : String
  RecommendedUser : String
  Role : Option String
  YearsExperience : Option String
  SimilarityScore : ℚ
  SharedCompanies : List String
  SharedLocations : List String
  SharedUniversities : List String
  CommonInterests : List String
  CommonSkills : List String
deriving DecidableEq, Repr

/-- The three categories merged by the aggregator. -/
inductive Category where
  | demographics
  | interests
  | skills
deriving DecidableEq, Repr

/-- The five evidence keys looped over in `add_rec_data`
(`['SharedCompanies', 'SharedLocations', 'SharedUniversities',
'CommonInterests', 'CommonSkills']`). -/
inductive EvKey where
  | sharedCompanies
  | sharedLocations
  | sharedUniversities
  | commonInterests
  | commonSkills
deriving DecidableEq, Repr

/-- Evidence list of a fetched row under one key. -/
def evRec (k : EvKey) (r : RecRow) : List String :=
  match k with
  | .sharedCompanies => r.SharedCompanies
  | .sharedLocations => r.SharedLocations
  | .sharedUniversities => r.SharedUniversities
  | .commonInterests => r.CommonInterests
  | .commonSkills => r.CommonSkills

/-- One value of the working dict `combined_users` in
`get_recommendations_attendee`: display data, the per-category score map
`Scores`, and the raw (not yet deduplicated) evidence lists `CommonalityRaw`. -/
structure AggEntry where
  UserID : String
  RecommendedUser : String
  Role : Option String
  YearsExperience : Option String
  demographicsScore : ℚ
  interestsScore : ℚ
  skillsScore : ℚ
  rawSharedCompanies : List String
  rawSharedLocations : List String
  rawSharedUniversities : List String
  rawCommonInterests : List String
  rawCommonSkills : List String
deriving DecidableEq, Repr

/-- Read `combined_users[uid]['Scores'][category_key]`. -/
def getScore (e : AggEntry) (c : Category) : ℚ :=
  match c with
  | .demographics => e.demographicsScore
  | .interests => e.interestsScore
  | .skills => e.skillsScore

/-- Write `combined_users[uid]['Scores'][category_key] = v`. -/
def setScore (e : AggEntry) (c : Category) (v : ℚ) : AggEntry :=
  match c with
  | .demographics => { e with demographicsScore := v }
  | .interests => { e with interestsScore := v }
  | .skills => { e with skillsScore := v }

/-- Raw evidence list of a working-dict entry under one key. -/
def evRaw (k : EvKey) (e : AggEntry) : List String :=
  match k with
  | .sharedCompanies => e.rawSharedCompanies
  | .sharedLocations => e.rawSharedLocations
  | .sharedUniversities => e.rawSharedUniversities
  | .commonInterests => e.rawCommonInterests
  | .commonSkills => e.rawCommonSkills

/-- The initialization branch of `add_rec_data` (`if uid not in combined_users`):
base display data from the row, all three scores `0.0`, empty raw evidence. -/
def initEntry (r : RecRow) : AggEntry :=
  { UserID := r.UserID
    RecommendedUser := r.RecommendedUser
    Role := r.Role
    YearsExperience := r.YearsExperience
    demographicsScore := 0
    interestsScore := 0
    skillsScore := 0
    rawSharedCompanies := []
    rawSharedLocations := []
    rawSharedUniversities := []
    rawCommonInterests := []
    rawCommonSkills := [] }

/-- The unconditional part of one `add_rec_data` loop iteration: assign this
category's score and extend each raw evidence list by the row's list
(`setdefault(key, []).extend(rec[key])`; extending by an absent or empty list
is a no-op, so the `if key in rec and rec[key]` guard drops out). -/
def updateEntry (e : AggEntry) (r : RecRow) (c : Category) : AggEntry :=
  let e := setScore e c r.SimilarityScore
  { e with
    rawSharedCompanies := e.rawSharedCompanies ++ r.SharedCompanies
    rawSharedLocations := e.rawSharedLocations ++ r.SharedLocations
    rawSharedUniversities := e.rawSharedUniversities ++ r.SharedUniversities
    rawCommonInterests := e.rawCommonInterests ++ r.CommonInterests
    rawCommonSkills := e.rawCommonSkills ++ r.CommonSkills }

/-- One iteration of the `for rec in rec_list` loop of `add_rec_data` on the
working dict: update the entry of `rec['UserID']` in place, or append a fresh
initialized-and-updated entry when the key is absent. -/
def addRec (m : List AggEntry) (r : RecRow) (c : Category) : List AggEntry :=
  match m with
  | [] => [updateEntry (initEntry r) r c]
  | e :: es =>
      if e.UserID = r.UserID then updateEntry e r c :: es
      else e :: addRec es r c

/-- `add_rec_data(rec_list, category_key)`: fold the rows of one category's
result list into the working dict. -/
def add_rec_data (m : List AggEntry) (recs : List RecRow) (c : Category) :
    List AggEntry :=
  recs.foldl (fun m r => addRec m r c) m

/-- The three `add_rec_data` calls of `get_recommendations_attendee`, in their
fixed source order: demographics, then interests, then skills. -/
def combineUsers (d i s : List RecRow) : List AggEntry :=
  add_rec_data (add_rec_data (add_rec_data [] d .demographics) i .interests)
    s .skills

/-- One element of `final_recommendations_list`: the entry after Step 3 of
`get_recommendations_attendee` computed `FinalScore` and replaced
`CommonalityRaw` by the deduplicated `Commonalities`. -/
structure FinalRow where
  UserID : String
  RecommendedUser : String
  Role : Option String
  YearsExperience : Option String
  demographicsScore : ℚ
  interestsScore : ℚ
  skillsScore : ℚ
  FinalScore : ℚ
  SharedCompanies : List String
  SharedLocations : List String
  SharedUniversities : List String
  CommonInterests : List String
  CommonSkills : List String
deriving DecidableEq, Repr

/-- Deduplicated evidence list of a final row under one key. -/
def evFinal (k : EvKey) (r : FinalRow) : List String :=
  match k with
  | .sharedCompanies => r.SharedCompanies
  | .sharedLocations => r.SharedLocations
  | .sharedUniversities => r.SharedUniversities
  | .commonInterests => r.CommonInterests
  | .commonSkills => r.CommonSkills

/-- Step 3 of `get_recommendations_attendee` for one working-dict entry:
`final_weighted_score = demo*0.20 + interest*0.60 + skill*0.10` and
per-key deduplication of the raw commonality lists (`list(set(raw_list))`). -/
def finalizeEntry (e : AggEntry) : FinalRow :=
  { UserID := e.UserID
    RecommendedUser := e.RecommendedUser
    Role := e.Role
    YearsExperience := e.YearsExperience
    demographicsScore := e.demographicsScore
    interestsScore := e.interestsScore
    skillsScore := e.skillsScore
    FinalScore := e.demographicsScore * (20/100) + e.interestsScore * (60/100)
      + e.skillsScore * (10/100)
    SharedCompanies := e.rawSharedCompanies.dedup
    SharedLocations := e.rawSharedLocations.dedup
    SharedUniversities := e.rawSharedUniversities.dedup
    CommonInterests := e.rawCommonInterests.dedup
    CommonSkills := e.rawCommonSkills.dedup }

/-- Stable insertion (descending by `FinalScore`): the new element goes before
the first strictly smaller score, after equal ones that were earlier in the
original list — the tie behavior of Python's stable `sort(..., reverse=True)`. -/
def insertDesc (r : FinalRow) : List FinalRow → List FinalRow
  | [] => [r]
  | x :: xs =>
      if x.FinalScore ≤ r.FinalScore then r :: x :: xs
      else x :: insertDesc r xs

/-- `final_recommendations_list.sort(key=lambda x: x['FinalScore'], reverse=True)`
as a stable insertion sort. -/
def sortDesc (l : List FinalRow) : List FinalRow :=
  l.foldr insertDesc []

/-- `get_recommendations_attendee`'s pure aggregation pipeline, from the three
fetched category result lists and the `limit` query parameter to the returned
`recommendations` list: combine into the working dict, finalize every entry,
sort by `FinalScore` descending, truncate to the first `limit` entries. -/
def get_recommendations_attendee (d i s : List RecRow) (limit : Nat) :
    List FinalRow :=
  (sortDesc ((combineUsers d i s).map finalizeEntry)).take limit

/-- The endpoint body including its `try`/`except`: the three category fetches
are awaited inside the `try`, so the first raising fetch aborts the whole
aggregation and the `except` turns it into
`HTTPException(500, "Error fetching unified recommendations: ...")`. A fetch
result is `Except String (List RecRow)`: `.ok` a result list, `.error` a raised
exception's message. -/
def recommendationsEndpoint (d i s : Except String (List RecRow))
    (limit : Nat) : Except String (List FinalRow) :=
  match d with
  | .error e => .error ("Error fetching unified recommendations: " ++ e)
  | .ok d =>
    match i with
    | .error e => .error ("Error fetching unified recommendations: " ++ e)
    | .ok i =>
      match s with
      | .error e => .error ("Error fetching unified recommendations: " ++ e)
      | .ok s => .ok (get_recommendations_attendee d i s limit)

/-- Score contributed by one category's result list for one user id: the
`SimilarityScore` of the last row with that id (each loop iteration assigns
`Scores[category_key]`, so the last assignment wins), `0.0` when the id does
not occur in the list. -/
def catScore (recs : List RecRow) (u : String) : ℚ :=
  match (recs.filter (fun r => r.UserID = u)).getLast? with
  | some r => r.SimilarityScore
  | none => 0

/-- Look a user id up in the working dict. -/
def mfind (m : List AggEntry) (u : String) : Option AggEntry :=
  m.find? (fun e => e.UserID = u)

/-! ## Entity canonicalizer (`src/app/services/process.py`) -/

/-- A row of one of the catalog tables with a mandatory embedding column
(`SkillInterest`, and the shape shared by `Company`/`JobRole`, whose embedding
column is unused by their find-or-create paths). -/
structure Entity where
  id : Nat
  name : String
  embedding : List ℚ
deriving DecidableEq, Repr

/-- A row of the `Location` table: its `embedding` column is nullable and
`find_or_create_location` filters on `Location.embedding.isnot(None)`. -/
structure LocEntity where
  id : Nat
  name : String
  embedding : Option (List ℚ)
deriving DecidableEq, Repr

/-- The catalog store: one table per entity family, plus the fresh-id counter
modelling `uuid.uuid4()` generation. -/
structure Catalog where
  skill_interests : List Entity
  companies : List Entity
  job_roles : List Entity
  locations : List LocEntity
  nextId : Nat
deriving DecidableEq, Repr

/-- What the find-or-create functions return to their caller: the id and the
normalized display name of the resolved entity. -/
structure Resolved where
  id : Nat
  name : String
deriving DecidableEq, Repr

/-- Squared Euclidean distance between two embedding vectors. Ranking rows by
`l2_distance` ascending is the same as ranking by the squared distance. -/
def l2sq (a b : List ℚ) : ℚ :=
  (List.zipWith (fun x y => (x - y) * (x - y)) a b).sum

/-- Stable insertion ascending by a rational sort key (the `ORDER BY` of the
vector queries; ties keep table order). -/
def insertAsc (key : α → ℚ) (a : α) : List α → List α
  | [] => [a]
  | x :: xs =>
      if key a ≤ key x then a :: x :: xs
      else x :: insertAsc key a xs

/-- Stable sort ascending by a rational sort key. -/
def sortAsc (key : α → ℚ) (l : List α) : List α :=
  l.foldr (insertAsc key) []

/-- The vector query of `find_or_create_skill_interest`:
`ORDER BY SkillInterest.embedding.l2_distance(embedding) LIMIT 5`. -/
def vectorTop5 (emb : List ℚ) (table : List Entity) : List Entity :=
  (sortAsc (fun e => l2sq e.embedding emb) table).take 5

/-- `find_or_create_skill_interest(db, entity_name, entity_type)`. The
`entity_type` argument is carried but — exactly as in the source — never used
to filter: skills and interests live in the one `SkillInterest` table. Control
flow of the source: run the top-5 vector query; if it returned rows, look for
an exact name match over the whole table (`select(SkillInterest).filter(
SkillInterest.name == entity_name)`, `scalars().first()`) and fall back to the
top vector row; only when the vector result set is empty (the table is empty)
create a new row with a fresh id, `name = entity_name` and the embedding
generated from the input. -/
def find_or_create_skill_interest (embed : String → List ℚ) (cat : Catalog)
    (entity_name : String) (entity_type : String) : Resolved × Catalog :=
  let emb := embed entity_name
  match vectorTop5 emb cat.skill_interests with
  | [] =>
      let e : Entity := ⟨cat.nextId, entity_name, emb⟩
      (⟨e.id, e.name⟩,
        { cat with
            skill_interests := cat.skill_interests ++ [e]
            nextId := cat.nextId + 1 })
  | t :: _ =>
      match cat.skill_interests.find? (fun e => e.name = entity_name) with
      | some e => (⟨e.id, e.name⟩, cat)
      | none => (⟨t.id, t.name⟩, cat)

/-- `find_or_create_company(db, company_name)`: exact name lookup in the
`Company` table, create on miss. -/
def find_or_create_company (cat : Catalog) (company_name : String) :
    Resolved × Catalog :=
  match cat.companies.find? (fun e => e.name = company_name) with
  | some e => (⟨e.id, e.name⟩, cat)
  | none =>
      (⟨cat.nextId, company_name⟩,
        { cat with
            companies := cat.companies ++ [⟨cat.nextId, company_name, []⟩]
            nextId := cat.nextId + 1 })

/-- `find_or_create_job_role(db, job_role_title)`: exact name lookup in the
`JobRole` table, create on miss. -/
def find_or_create_job_role (cat : Catalog) (job_role_title : String) :
    Resolved × Catalog :=
  match cat.job_roles.find? (fun e => e.name = job_role_title) with
  | some e => (⟨e.id, e.name⟩, cat)
  | none =>
      (⟨cat.nextId, job_role_title⟩,
        { cat with
            job_roles := cat.job_roles ++ [⟨cat.nextId, job_role_title, []⟩]
            nextId := cat.nextId + 1 })

/-- `find_or_create_location(db, location_name)`: exact name match first; on
miss, the top-5 vector query restricted to rows whose embedding is not null;
take its rank-0 row when non-empty; otherwise create a new row with the input's
embedding. -/
def find_or_create_location (embed : String → List ℚ) (cat : Catalog)
    (location_name : String) : Resolved × Catalog :=
  let inputEmb := embed location_name
  match cat.locations.find? (fun e => e.name = location_name) with
  | some e => (⟨e.id, e.name⟩, cat)
  | none =>
      let withEmb := cat.locations.filter (fun e => e.embedding.isSome)
      let sorted := sortAsc (fun e => l2sq (e.embedding.getD []) inputEmb) withEmb
      match sorted.take 5 with
      | t :: _ => (⟨t.id, t.name⟩, cat)
      | [] =>
          (⟨cat.nextId, location_name⟩,
            { cat with
                locations :=
                  cat.locations ++ [⟨cat.nextId, location_name, some inputEmb⟩]
                nextId := cat.nextId + 1 })

/-- The five entity kinds in the spec's vocabulary. -/
inductive Kind where
  | skill
  | interest
  | company
  | job_role
  | location
deriving DecidableEq, Repr

/-- `resolve(raw_text, kind)`: dispatch to the find-or-create function the
callers in `people.py` / `person_service.py` use for each kind. Skills and
interests both go to `find_or_create_skill_interest`, which distinguishes them
only by the inert `entity_type` string. -/
def resolve (embed : String → List ℚ) (cat : Catalog) (raw_text : String)
    (k : Kind) : Resolved × Catalog :=
  match k with
  | .skill => find_or_create_skill_interest embed cat raw_text "skill"
  | .interest => find_or_create_skill_interest embed cat raw_text "interest"
  | .company => find_or_create_company cat raw_text
  | .job_role => find_or_create_job_role cat raw_text
  | .location => find_or_create_location embed cat raw_text

/-- Modelled from the spec (§4.1 step 3), for comparison with the code: the
exact lexical check is run restricted to the 5 vector-nearest candidates, and
falls back to the rank-0 vector match when no candidate of that set matches
lexically. -/
def resolveSpecLexicalTop5 (embed : String → List ℚ) (cat : Catalog)
    (entity_name : String) : Resolved × Catalog :=
  let emb := embed entity_name
  match vectorTop5 emb cat.skill_interests with
  | [] =>
      let e : Entity := ⟨cat.nextId, entity_name, emb⟩
      (⟨e.id, e.name⟩,
        { cat with
            skill_interests := cat.skill_interests ++ [e]
            nextId := cat.nextId + 1 })
  | t :: rest =>
      match (t :: rest).find? (fun e => e.name = entity_name) with
      | some e => (⟨e.id, e.name⟩, cat)
      | none => (⟨t.id, t.name⟩, cat)

/-- The four physical tables of the catalog; `Kind.skill` and `Kind.interest`
share the `SkillInterest` table. -/
inductive Table where
  | si
  | co
  | jr
  | lo
deriving DecidableEq, Repr

/-- The table a kind's find-or-create path reads and writes. -/
def kindTable : Kind → Table
  | .skill => .si
  | .interest => .si
  | .company => .co
  | .job_role => .jr
  | .location => .lo

/-- The ids present in one table of the catalog. -/
def tableIds (cat : Catalog) : Table → List Nat
  | .si => cat.skill_interests.map (fun e => e.id)
  | .co => cat.companies.map (fun e => e.id)
  | .jr => cat.job_roles.map (fun e => e.id)
  | .lo => cat.locations.map (fun e => e.id)

/-- Every id of every table is below the fresh-id counter. -/
def IdsBounded (cat : Catalog) : Prop :=
  (∀ i ∈ tableIds cat .si, i < cat.nextId) ∧
  (∀ i ∈ tableIds cat .co, i < cat.nextId) ∧
  (∀ i ∈ tableIds cat .jr, i < cat.nextId) ∧
  (∀ i ∈ tableIds cat .lo, i < cat.nextId)

/-- The four tables have pairwise disjoint id sets (the uuid4 ids of the
source are globally unique across tables). -/
def IdsDisjoint (cat : Catalog) : Prop :=
  (∀ i ∈ tableIds cat .si, i ∉ tableIds cat .co ∧ i ∉ tableIds cat .jr ∧
    i ∉ tableIds cat .lo) ∧
  (∀ i ∈ tableIds cat .co, i ∉ tableIds cat .jr ∧ i ∉ tableIds cat .lo) ∧
  (∀ i ∈ tableIds cat .jr, i ∉ tableIds cat .lo)

/-- A well-formed catalog state: bounded and pairwise disjoint ids. -/
def CatalogWF (cat : Catalog) : Prop :=
  IdsBounded cat ∧ IdsDisjoint cat

/-- Fold one category's occurrences of a single user id into its entry. -/
def applyRecs (c : Category) (e : AggEntry) (rs : List RecRow) : AggEntry :=
  rs.foldl (fun e r => updateEntry e r c) e

/-- The keys of the working dict, in insertion order. -/
def keys (m : List AggEntry) : List String :=
  m.map (fun e => e.UserID)

/-! ## Concrete test fixtures (inputs for the worked examples of the spec) -/

/-- Candidate A of the spec's worked example: demographics score `0.5` only. -/
def rowA : RecRow := ⟨"A", "Alice", none, none, 1/2, [], [], [], [], []⟩

/-- The working-dict entry of candidate A. -/
def entryA : AggEntry := ⟨"A", "Alice", none, none, 1/2, 0, 0, [], [], [], [], []⟩

/-- Candidate B of the spec's worked example, interests row: score `0.2`. -/
def rowBint : RecRow := ⟨"B", "Bob", none, none, 1/5, [], [], [], [], []⟩

/-- Candidate B of the spec's worked example, skills row: score `1.0`. -/
def rowBsk : RecRow := ⟨"B", "Bob", none, none, 1, [], [], [], [], []⟩

/-- Five distinct demographics-only candidates with strictly descending
composite scores (`5, 4, 3, 2, 1`). -/
def rowU1 : RecRow := ⟨"u1", "U1", none, none, 25, [], [], [], [], []⟩

def rowU2 : RecRow := ⟨"u2", "U2", none, none, 20, [], [], [], [], []⟩

def rowU3 : RecRow := ⟨"u3", "U3", none, none, 15, [], [], [], [], []⟩

def rowU4 : RecRow := ⟨"u4", "U4", none, none, 10, [], [], [], [], []⟩

def rowU5 : RecRow := ⟨"u5", "U5", none, none, 5, [], [], [], [], []⟩

/-- The aggregated output row of `rowU1`. -/
def outU1 : FinalRow :=
  ⟨"u1", "U1", none, none, 25, 0, 0, 5, [], [], [], [], []⟩

/-- A demographics row reporting shared-company evidence `"Acme Corp"`. -/
def rowXd : RecRow := ⟨"X", "Xavier", none, none, 1, ["Acme Corp"], [], [], [], []⟩

/-- An interests row for the same candidate, also reporting `"Acme Corp"`. -/
def rowXi : RecRow := ⟨"X", "Xavier", none, none, 1, ["Acme Corp"], [], [], [], []⟩

/-- The aggregated output row of candidate `"X"` from `rowXd`/`rowXi`. -/
def outX : FinalRow :=
  ⟨"X", "Xavier", none, none, 1, 1, 0, 4/5, ["Acme Corp"], [], [], [], []⟩

/-- A demographics row for candidate `"Y"` with its own display fields. -/
def rowYdemo : RecRow :=
  ⟨"Y", "Yann Demo", some "Engineer", some "5", 2, [], [], [], [], []⟩

/-- A skills row for the same candidate with conflicting display fields. -/
def rowYskill : RecRow :=
  ⟨"Y", "Yann Skill", some "Plumber", none, 3, [], [], [], [], []⟩

/-- The working-dict entry of candidate `"Y"`: display data from the
demographics row, scores from both rows. -/
def entryY : AggEntry :=
  ⟨"Y", "Yann Demo", some "Engineer", some "5", 2, 0, 3, [], [], [], [], []⟩

/-- A concrete embedding provider for test instances: every input embeds to
the one-dimensional vector `[0]`. -/
def embedT : String → List ℚ := fun _ => [0]

/-- The empty catalog. -/
def cat0 : Catalog := ⟨[], [], [], [], 0⟩

/-- A catalog whose skill/interest table holds five rows close to `embedT`'s
output and a sixth row named exactly `"Python"` that is vector-farthest. -/
def cat6 : Catalog :=
  ⟨[⟨1, "n1", [1]⟩, ⟨2, "n2", [2]⟩, ⟨3, "n3", [3]⟩, ⟨4, "n4", [4]⟩,
    ⟨5, "n5", [5]⟩, ⟨6, "Python", [100]⟩], [], [], [], 7⟩

/-- A catalog holding an embedding-near near-duplicate `"Pyhton"` and a
vector-farther row named exactly `"Python"`. -/
def catPy : Catalog :=
  ⟨[⟨1, "Pyhton", [1]⟩, ⟨2, "Python", [50]⟩], [], [], [], 3⟩

/-! ## Aggregator lemmas -/

theorem applyRecs_nil (c : Category) (e : AggEntry) : applyRecs c e [] = e := rfl

theorem applyRecs_cons (c : Category) (e : AggEntry) (r : RecRow)
    (rs : List RecRow) :
    applyRecs c e (r :: rs) = applyRecs c (updateEntry e r c) rs := rfl

theorem updateEntry_UserID (e : AggEntry) (r : RecRow) (c : Category) :
    (updateEntry e r c).UserID = e.UserID := by
  cases c <;> rfl

theorem updateEntry_RecommendedUser (e : AggEntry) (r : RecRow) (c : Category) :
    (updateEntry e r c).RecommendedUser = e.RecommendedUser := by
  cases c <;> rfl

theorem updateEntry_Role (e : AggEntry) (r : RecRow) (c : Category) :
    (updateEntry e r c).Role = e.Role := by
  cases c <;> rfl

theorem updateEntry_YearsExperience (e : AggEntry) (r : RecRow) (c : Category) :
    (updateEntry e r c).YearsExperience = e.YearsExperience := by
  cases c <;> rfl

theorem getScore_updateEntry_self (e : AggEntry) (r : RecRow) (c : Category) :
    getScore (updateEntry e r c) c = r.SimilarityScore := by
  cases c <;> rfl

theorem getScore_updateEntry_ne (e : AggEntry) (r : RecRow) {c c' : Category}
    (h : c' ≠ c) : getScore (updateEntry e r c) c' = getScore e c' := by
  cases c <;> cases c' <;> first | exact absurd rfl h | rfl

theorem evRaw_updateEntry (k : EvKey) (e : AggEntry) (r : RecRow)
    (c : Category) : evRaw k (updateEntry e r c) = evRaw k e ++ evRec k r := by
  cases c <;> cases k <;> rfl

theorem initEntry_UserID (r : RecRow) : (initEntry r).UserID = r.UserID := rfl

theorem applyRecs_UserID (c : Category) (e : AggEntry) (rs : List RecRow) :
    (applyRecs c e rs).UserID = e.UserID := by
  induction rs generalizing e with
  | nil => rfl
  | cons r rs ih =>
      rw [applyRecs_cons, ih, updateEntry_UserID]

theorem applyRecs_RecommendedUser (c : Category) (e : AggEntry)
    (rs : List RecRow) :
    (applyRecs c e rs).RecommendedUser = e.RecommendedUser := by
  induction rs generalizing e with
  | nil => rfl
  | cons r rs ih =>
      rw [applyRecs_cons, ih, updateEntry_RecommendedUser]

theorem applyRecs_Role (c : Category) (e : AggEntry) (rs : List RecRow) :
    (applyRecs c e rs).Role = e.Role := by
  induction rs generalizing e with
  | nil => rfl
  | cons r rs ih =>
      rw [applyRecs_cons, ih, updateEntry_Role]

theorem applyRecs_YearsExperience (c : Category) (e : AggEntry)
    (rs : List RecRow) :
    (applyRecs c e rs).YearsExperience = e.YearsExperience := by
  induction rs generalizing e with
  | nil => rfl
  | cons r rs ih =>
      rw [applyRecs_cons, ih, updateEntry_YearsExperience]

theorem getScore_applyRecs_ne (e : AggEntry) (rs : List RecRow)
    {c c' : Category} (h : c' ≠ c) :
    getScore (applyRecs c e rs) c' = getScore e c' := by
  induction rs generalizing e with
  | nil => rfl
  | cons r rs ih =>
      rw [applyRecs_cons, ih, getScore_updateEntry_ne _ _ h]

theorem getScore_applyRecs_self (e : AggEntry) (rs : List RecRow)
    (c : Category) :
    getScore (applyRecs c e rs) c =
      (rs.getLast?.map (fun r => r.SimilarityScore)).getD (getScore e c) := by
  induction rs generalizing e with
  | nil => rfl
  | cons r rs ih =>
      rw [applyRecs_cons, ih]
      cases rs with
      | nil => simp [getScore_updateEntry_self]
      | cons r' rs' =>
          rw [List.getLast?_cons_cons]
          have hne : (r' :: rs').getLast? ≠ none := by
            simp [List.getLast?_eq_none_iff]
          cases hlast : (r' :: rs').getLast? with
          | none => exact absurd hlast hne
          | some x => simp

theorem evRaw_applyRecs (k : EvKey) (c : Category) (e : AggEntry)
    (rs : List RecRow) :
    evRaw k (applyRecs c e rs) = evRaw k e ++ rs.flatMap (evRec k) := by
  induction rs generalizing e with
  | nil => simp [applyRecs_nil]
  | cons r rs ih =>
      rw [applyRecs_cons, ih, evRaw_updateEntry]
      simp

theorem mfind_addRec_self (m : List AggEntry) (r : RecRow) (c : Category) :
    mfind (addRec m r c) r.UserID =
      some (updateEntry ((mfind m r.UserID).getD (initEntry r)) r c) := by
  induction m with
  | nil =>
      simp [addRec, mfind, List.find?_cons, updateEntry_UserID, initEntry_UserID]
  | cons e es ih =>
      by_cases h : e.UserID = r.UserID
      · simp only [addRec, if_pos h, mfind, List.find?_cons]
        rw [updateEntry_UserID]
        simp [h]
      · simp only [addRec, if_neg h, mfind, List.find?_cons]
        have hd : (decide (e.UserID = r.UserID)) = false := by
          simp [h]
        rw [hd]
        exact ih

theorem mfind_addRec_ne (m : List AggEntry) (r : RecRow) (c : Category)
    {u : String} (h : u ≠ r.UserID) :
    mfind (addRec m r c) u = mfind m u := by
  induction m with
  | nil =>
      simp [addRec, mfind, List.find?_cons, updateEntry_UserID, initEntry_UserID,
        Ne.symm h]
  | cons e es ih =>
      by_cases he : e.UserID = r.UserID
      · have hu : ¬ (e.UserID = u) := fun hc => h (hc ▸ he ▸ rfl)
        simp only [addRec, if_pos he, mfind, List.find?_cons]
        rw [updateEntry_UserID]
        simp [hu, he ▸ hu, mfind]
      · simp only [addRec, if_neg he, mfind, List.find?_cons]
        cases hdec : decide (e.UserID = u) with
        | true => rfl
        | false => exact ih

theorem add_rec_data_nil (m : List AggEntry) (c : Category) :
    add_rec_data m [] c = m := rfl

theorem add_rec_data_cons (m : List AggEntry) (r : RecRow) (rs : List RecRow)
    (c : Category) :
    add_rec_data m (r :: rs) c = add_rec_data (addRec m r c) rs c := rfl

theorem mfind_add_rec_data_some (c : Category) (recs : List RecRow)
    (m : List AggEntry) (u : String) (e : AggEntry) (h : mfind m u = some e) :
    mfind (add_rec_data m recs c) u =
      some (applyRecs c e (recs.filter (fun r => r.UserID = u))) := by
  induction recs generalizing m e with
  | nil => simpa [add_rec_data_nil, applyRecs_nil] using h
  | cons r rs ih =>
      rw [add_rec_data_cons]
      by_cases hu : r.UserID = u
      · subst hu
        have hfind := mfind_addRec_self m r c
        rw [h] at hfind
        simp only [Option.getD_some] at hfind
        rw [ih _ _ hfind]
        simp [applyRecs_cons]
      · have hfind : mfind (addRec m r c) u = some e := by
          rw [mfind_addRec_ne m r c (fun hc => hu hc.symm)]
          exact h
        rw [ih _ _ hfind]
        have : (r :: rs).filter (fun r => r.UserID = u) =
            rs.filter (fun r => r.UserID = u) := by
          simp [List.filter_cons, hu]
        rw [this]

theorem mfind_add_rec_data_none_cons (c : Category) (recs : List RecRow)
    (m : List AggEntry) (u : String) (h : mfind m u = none)
    (r : RecRow) (rs : List RecRow)
    (hf : recs.filter (fun r => r.UserID = u) = r :: rs) :
    mfind (add_rec_data m recs c) u =
      some (applyRecs c (initEntry r) (r :: rs)) := by
  induction recs generalizing m with
  | nil => simp at hf
  | cons r0 rs0 ih =>
      rw [add_rec_data_cons]
      by_cases hu : r0.UserID = u
      · have hf0 : r0 :: rs0.filter (fun r => r.UserID = u) = r :: rs := by
          rw [← hf]; simp [List.filter_cons, hu]
        have hr : r0 = r := (List.cons.injEq _ _ _ _ ▸ hf0).1
        have hrs : rs0.filter (fun r => r.UserID = u) = rs :=
          (List.cons.injEq _ _ _ _ ▸ hf0).2
        subst hr
        have hfind := mfind_addRec_self m r0 c
        rw [hu] at hfind
        rw [h] at hfind
        simp only [Option.getD_none] at hfind
        rw [mfind_add_rec_data_some c rs0 _ u _ hfind, hrs]
        simp [applyRecs_cons]
      · have hfind : mfind (addRec m r0 c) u = none := by
          rw [mfind_addRec_ne m r0 c (fun hc => hu hc.symm)]
          exact h
        have hf0 : rs0.filter (fun r => r.UserID = u) = r :: rs := by
          rw [← hf]; simp [List.filter_cons, hu]
        exact ih _ hfind hf0

theorem mfind_add_rec_data_none_nil (c : Category) (recs : List RecRow)
    (m : List AggEntry) (u : String) (h : mfind m u = none)
    (hf : recs.filter (fun r => r.UserID = u) = []) :
    mfind (add_rec_data m recs c) u = none := by
  induction recs generalizing m with
  | nil => simpa [add_rec_data_nil] using h
  | cons r0 rs0 ih =>
      rw [add_rec_data_cons]
      by_cases hu : r0.UserID = u
      · simp [List.filter_cons, hu] at hf
      · have hfind : mfind (addRec m r0 c) u = none := by
          rw [mfind_addRec_ne m r0 c (fun hc => hu hc.symm)]
          exact h
        have hf0 : rs0.filter (fun r => r.UserID = u) = [] := by
          rw [← hf]; simp [List.filter_cons, hu]
        exact ih _ hfind hf0

theorem mfind_nil (u : String) : mfind [] u = none := rfl

theorem mfind_combineUsers_none (d i s : List RecRow) (u : String)
    (hd : d.filter (fun r => r.UserID = u) = [])
    (hi : i.filter (fun r => r.UserID = u) = [])
    (hs : s.filter (fun r => r.UserID = u) = []) :
    mfind (combineUsers d i s) u = none := by
  unfold combineUsers
  have h1 := mfind_add_rec_data_none_nil .demographics d [] u (mfind_nil u) hd
  have h2 := mfind_add_rec_data_none_nil .interests i _ u h1 hi
  exact mfind_add_rec_data_none_nil .skills s _ u h2 hs

theorem mfind_combineUsers_some (d i s : List RecRow) (u : String)
    (r : RecRow) (rest : List RecRow)
    (hf : (d ++ i ++ s).filter (fun x => x.UserID = u) = r :: rest) :
    mfind (combineUsers d i s) u =
      some (applyRecs .skills
        (applyRecs .interests
          (applyRecs .demographics (initEntry r)
            (d.filter (fun x => x.UserID = u)))
          (i.filter (fun x => x.UserID = u)))
        (s.filter (fun x => x.UserID = u))) := by
  have hsplit : (d ++ i ++ s).filter (fun x => x.UserID = u) =
      d.filter (fun x => x.UserID = u) ++ i.filter (fun x => x.UserID = u) ++
        s.filter (fun x => x.UserID = u) := by
    simp [List.filter_append]
  unfold combineUsers
  cases hd : d.filter (fun x => x.UserID = u) with
  | cons r0 tl =>
      have hr : r0 = r := by
        rw [hsplit, hd] at hf
        simp only [List.cons_append, List.cons.injEq] at hf
        exact hf.1
      subst hr
      have h1 := mfind_add_rec_data_none_cons .demographics d [] u (mfind_nil u)
        r0 tl hd
      have h2 := mfind_add_rec_data_some .interests i _ u _ h1
      have h3 := mfind_add_rec_data_some .skills s _ u _ h2
      exact h3
  | nil =>
      have h1 := mfind_add_rec_data_none_nil .demographics d [] u (mfind_nil u) hd
      cases hi : i.filter (fun x => x.UserID = u) with
      | cons r0 tl =>
          have hr : r0 = r := by
            rw [hsplit, hd, hi] at hf
            simp only [List.nil_append, List.cons_append, List.cons.injEq] at hf
            exact hf.1
          subst hr
          have h2 := mfind_add_rec_data_none_cons .interests i _ u h1 r0 tl hi
          have h3 := mfind_add_rec_data_some .skills s _ u _ h2
          rw [h3]
          simp [applyRecs_nil]
      | nil =>
          have h2 := mfind_add_rec_data_none_nil .interests i _ u h1 hi
          cases hs : s.filter (fun x => x.UserID = u) with
          | cons r0 tl =>
              have hr : r0 = r := by
                rw [hsplit, hd, hi, hs] at hf
                simp only [List.nil_append, List.cons_append,
                  List.cons.injEq] at hf
                exact hf.1
              subst hr
              have h3 := mfind_add_rec_data_none_cons .skills s _ u h2 r0 tl hs
              rw [h3]
              simp [applyRecs_nil]
          | nil =>
              rw [hsplit, hd, hi, hs] at hf
              simp at hf

theorem evRaw_initEntry (k : EvKey) (r : RecRow) : evRaw k (initEntry r) = [] := by
  cases k <;> rfl

theorem getLast_getD_catScore (l : List RecRow) (u : String) :
    ((l.filter (fun r => r.UserID = u)).getLast?.map
      (fun r => r.SimilarityScore)).getD 0 = catScore l u := by
  unfold catScore
  cases h : (l.filter (fun r => r.UserID = u)).getLast? <;> simp [h]

/-- Full characterization of an entry of the working dict after the three
`add_rec_data` calls: display data comes from the first occurrence of the id
across the concatenated demographics-interests-skills inputs, each per-category
score is that category's `catScore`, and each raw evidence list is the
concatenation, in processing order, of the occurrences' evidence lists. -/
theorem mfind_combineUsers_char (d i s : List RecRow) (u : String)
    (e : AggEntry) (h : mfind (combineUsers d i s) u = some e) :
    ∃ r rest, (d ++ i ++ s).filter (fun x => x.UserID = u) = r :: rest ∧
      e.UserID = r.UserID ∧
      e.RecommendedUser = r.RecommendedUser ∧
      e.Role = r.Role ∧
      e.YearsExperience = r.YearsExperience ∧
      e.demographicsScore = catScore d u ∧
      e.interestsScore = catScore i u ∧
      e.skillsScore = catScore s u ∧
      ∀ k, evRaw k e =
        ((d ++ i ++ s).filter (fun x => x.UserID = u)).flatMap (evRec k) := by
  have hsplit : (d ++ i ++ s).filter (fun x => x.UserID = u) =
      d.filter (fun x => x.UserID = u) ++ i.filter (fun x => x.UserID = u) ++
        s.filter (fun x => x.UserID = u) := by
    simp [List.filter_append]
  cases hf : (d ++ i ++ s).filter (fun x => x.UserID = u) with
  | nil =>
      rw [hsplit] at hf
      have hd := (List.append_eq_nil.mp ((List.append_eq_nil.mp hf).1)).1
      have hi := (List.append_eq_nil.mp ((List.append_eq_nil.mp hf).1)).2
      have hs := (List.append_eq_nil.mp hf).2
      rw [mfind_combineUsers_none d i s u hd hi hs] at h
      exact absurd h (by simp)
  | cons r rest =>
      refine ⟨r, rest, rfl, ?_⟩
      rw [mfind_combineUsers_some d i s u r rest hf] at h
      have he := (Option.some.injEq _ _ ▸ h).symm
      subst he
      refine ⟨?_, ?_, ?_, ?_, ?_, ?_, ?_, ?_⟩
      · rw [applyRecs_UserID, applyRecs_UserID, applyRecs_UserID, initEntry_UserID]
      · rw [applyRecs_RecommendedUser, applyRecs_RecommendedUser,
          applyRecs_RecommendedUser]
        rfl
      · rw [applyRecs_Role, applyRecs_Role, applyRecs_Role]
        rfl
      · rw [applyRecs_YearsExperience, applyRecs_YearsExperience,
          applyRecs_YearsExperience]
        rfl
      · show getScore _ .demographics = _
        rw [getScore_applyRecs_ne _ _ (by simp), getScore_applyRecs_ne _ _ (by simp),
          getScore_applyRecs_self]
        have h0 : getScore (initEntry r) .demographics = 0 := rfl
        rw [h0, getLast_getD_catScore]
      · show getScore _ .interests = _
        rw [getScore_applyRecs_ne _ _ (by simp), getScore_applyRecs_self]
        have h0 : getScore (applyRecs .demographics (initEntry r)
            (d.filter (fun x => x.UserID = u))) .interests = 0 := by
          rw [getScore_applyRecs_ne _ _ (by simp)]
          rfl
        rw [h0, getLast_getD_catScore]
      · show getScore _ .skills = _
        rw [getScore_applyRecs_self]
        have h0 : getScore (applyRecs .interests
            (applyRecs .demographics (initEntry r)
              (d.filter (fun x => x.UserID = u)))
            (i.filter (fun x => x.UserID = u))) .skills = 0 := by
          rw [getScore_applyRecs_ne _ _ (by simp),
            getScore_applyRecs_ne _ _ (by simp)]
          rfl
        rw [h0, getLast_getD_catScore]
      · intro k
        have hcat : d.filter (fun x => x.UserID = u) ++
            i.filter (fun x => x.UserID = u) ++
            s.filter (fun x => x.UserID = u) = r :: rest :=
          hsplit.symm.trans hf
        rw [evRaw_applyRecs, evRaw_applyRecs, evRaw_applyRecs, evRaw_initEntry,
          ← hcat]
        simp

/-- The working dict contains an id exactly when the id occurs in at least one
of the three category result lists. -/
theorem mfind_combineUsers_isSome_iff (d i s : List RecRow) (u : String) :
    (mfind (combineUsers d i s) u).isSome ↔
      ∃ r ∈ d ++ i ++ s, r.UserID = u := by
  constructor
  · intro h
    cases hf : (d ++ i ++ s).filter (fun x => x.UserID = u) with
    | nil =>
        have hsplit : (d ++ i ++ s).filter (fun x => x.UserID = u) =
            d.filter (fun x => x.UserID = u) ++
              i.filter (fun x => x.UserID = u) ++
              s.filter (fun x => x.UserID = u) := by
          simp [List.filter_append]
        rw [hsplit] at hf
        have hd := (List.append_eq_nil.mp ((List.append_eq_nil.mp hf).1)).1
        have hi := (List.append_eq_nil.mp ((List.append_eq_nil.mp hf).1)).2
        have hs := (List.append_eq_nil.mp hf).2
        rw [mfind_combineUsers_none d i s u hd hi hs] at h
        simp at h
    | cons r rest =>
        have hr : r ∈ (d ++ i ++ s).filter (fun x => x.UserID = u) := by
          rw [hf]; exact List.mem_cons_self _ _
        have := List.mem_filter.mp hr
        exact ⟨r, this.1, by simpa using this.2⟩
  · rintro ⟨r, hmem, hid⟩
    cases hf : (d ++ i ++ s).filter (fun x => x.UserID = u) with
    | nil =>
        have : r ∈ (d ++ i ++ s).filter (fun x => x.UserID = u) :=
          List.mem_filter.mpr ⟨hmem, by simpa using hid⟩
        rw [hf] at this
        simp at this
    | cons r0 rest =>
        rw [mfind_combineUsers_some d i s u r0 rest hf]
        rfl

theorem keys_addRec (m : List AggEntry) (r : RecRow) (c : Category) :
    keys (addRec m r c) =
      if r.UserID ∈ keys m then keys m else keys m ++ [r.UserID] := by
  induction m with
  | nil => simp [keys, addRec, updateEntry_UserID, initEntry_UserID]
  | cons e es ih =>
      by_cases h : e.UserID = r.UserID
      · have hin : r.UserID ∈ keys (e :: es) :=
          List.mem_cons.mpr (Or.inl h.symm)
        rw [if_pos hin]
        have hstep : addRec (e :: es) r c = updateEntry e r c :: es := by
          simp [addRec, if_pos h]
        rw [hstep]
        simp [keys, updateEntry_UserID]
      · have hstep : addRec (e :: es) r c = e :: addRec es r c := by
          simp [addRec, if_neg h]
        rw [hstep]
        have hcons : keys (e :: addRec es r c) =
            e.UserID :: keys (addRec es r c) := rfl
        rw [hcons, ih]
        by_cases h2 : r.UserID ∈ keys es
        · have hin : r.UserID ∈ keys (e :: es) := List.mem_cons.mpr (Or.inr h2)
          rw [if_pos h2, if_pos hin]
          rfl
        · rw [if_neg h2, if_neg ?_]
          · rfl
          · intro hc
            rcases List.mem_cons.mp hc with hc | hc
            · exact h hc.symm
            · exact h2 hc

theorem keys_nodup_addRec (m : List AggEntry) (r : RecRow) (c : Category)
    (h : (keys m).Nodup) : (keys (addRec m r c)).Nodup := by
  rw [keys_addRec]
  by_cases hm : r.UserID ∈ keys m
  · simpa [hm] using h
  · simp only [if_neg hm]
    simp [List.nodup_append, h, hm]

theorem keys_nodup_add_rec_data (m : List AggEntry) (recs : List RecRow)
    (c : Category) (h : (keys m).Nodup) :
    (keys (add_rec_data m recs c)).Nodup := by
  induction recs generalizing m with
  | nil => simpa [add_rec_data_nil] using h
  | cons r rs ih =>
      rw [add_rec_data_cons]
      exact ih _ (keys_nodup_addRec m r c h)

theorem keys_nodup_combineUsers (d i s : List RecRow) :
    (keys (combineUsers d i s)).Nodup := by
  unfold combineUsers
  exact keys_nodup_add_rec_data _ s .skills
    (keys_nodup_add_rec_data _ i .interests
      (keys_nodup_add_rec_data _ d .demographics (by simp [keys])))

theorem mfind_of_mem_nodup (m : List AggEntry) (e : AggEntry)
    (hn : (keys m).Nodup) (hm : e ∈ m) : mfind m e.UserID = some e := by
  induction m with
  | nil => simp at hm
  | cons x xs ih =>
      rcases List.mem_cons.mp hm with he | he
      · subst he
        simp [mfind, List.find?_cons]
      · have hx : x.UserID ≠ e.UserID := by
          intro hc
          have : e.UserID ∈ keys xs := List.mem_map.mpr ⟨e, he, rfl⟩
          rw [← hc] at this
          exact (List.nodup_cons.mp hn).1 this
        simp only [mfind, List.find?_cons]
        rw [show (decide (x.UserID = e.UserID)) = false by simp [hx]]
        exact ih (List.nodup_cons.mp hn).2 he

/-! ## Sort lemmas -/

theorem mem_insertDesc (a r : FinalRow) (l : List FinalRow) :
    a ∈ insertDesc r l ↔ a = r ∨ a ∈ l := by
  induction l with
  | nil => simp [insertDesc]
  | cons x xs ih =>
      by_cases h : x.FinalScore ≤ r.FinalScore
      · simp [insertDesc, if_pos h]
      · simp [insertDesc, if_neg h, ih]
        tauto

theorem sortDesc_cons (x : FinalRow) (xs : List FinalRow) :
    sortDesc (x :: xs) = insertDesc x (sortDesc xs) := rfl

theorem mem_sortDesc (a : FinalRow) (l : List FinalRow) :
    a ∈ sortDesc l ↔ a ∈ l := by
  induction l with
  | nil => simp [sortDesc]
  | cons x xs ih =>
      rw [sortDesc_cons, mem_insertDesc]
      simp [ih]

theorem pairwise_insertDesc (r : FinalRow) (l : List FinalRow)
    (h : l.Pairwise (fun a b => b.FinalScore ≤ a.FinalScore)) :
    (insertDesc r l).Pairwise (fun a b => b.FinalScore ≤ a.FinalScore) := by
  induction l with
  | nil => simp [insertDesc]
  | cons x xs ih =>
      rcases List.pairwise_cons.mp h with ⟨hx, hxs⟩
      by_cases hc : x.FinalScore ≤ r.FinalScore
      · rw [insertDesc, if_pos hc]
        refine List.pairwise_cons.mpr ⟨?_, h⟩
        intro b hb
        rcases List.mem_cons.mp hb with hb | hb
        · subst hb; exact hc
        · exact le_trans (hx b hb) hc
      · rw [insertDesc, if_neg hc]
        refine List.pairwise_cons.mpr ⟨?_, ih hxs⟩
        intro b hb
        rcases (mem_insertDesc b r xs).mp hb with hb | hb
        · subst hb; exact le_of_lt (lt_of_not_le hc)
        · exact hx b hb

theorem pairwise_sortDesc (l : List FinalRow) :
    (sortDesc l).Pairwise (fun a b => b.FinalScore ≤ a.FinalScore) := by
  induction l with
  | nil => simp [sortDesc]
  | cons x xs ih =>
      rw [sortDesc_cons]
      exact pairwise_insertDesc x (sortDesc xs) ih

theorem finalizeEntry_UserID (e : AggEntry) :
    (finalizeEntry e).UserID = e.UserID := rfl

theorem evFinal_finalizeEntry (k : EvKey) (e : AggEntry) :
    evFinal k (finalizeEntry e) = (evRaw k e).dedup := by
  cases k <;> rfl

/-! ## Claim theorems: aggregator -/

/-- C1: for every candidate in the aggregator's working map, the composite
score equals 0.20 times its demographics score plus 0.60 times its interests
score plus 0.10 times its skills score, a category in which the candidate did
not appear contributing 0.0; and on the spec's worked example, candidate A
(demographics 0.5 only) gets composite 0.10, candidate B (interests 0.2,
skills 1.0) gets composite 0.22, and B ranks above A. -/
theorem C1_composite_score_weighted :
    (∀ (d i s : List RecRow) (u : String) (e : AggEntry),
        mfind (combineUsers d i s) u = some e →
        (finalizeEntry e).FinalScore =
          (20/100) * catScore d u + (60/100) * catScore i u +
            (10/100) * catScore s u) ∧
    (get_recommendations_attendee [rowA] [rowBint] [rowBsk] 10).map
        (fun r => (r.UserID, r.FinalScore)) = [("B", 11/50), ("A", 1/10)] := by
  constructor
  · intro d i s u e h
    obtain ⟨r, rest, _, _, _, _, _, hd, hi, hs, _⟩ :=
      mfind_combineUsers_char d i s u e h
    show e.demographicsScore * (20/100) + e.interestsScore * (60/100) +
      e.skillsScore * (10/100) = _
    rw [hd, hi, hs]
    ring
  · norm_num +decide [get_recommendations_attendee, combineUsers, add_rec_data,
      addRec, updateEntry, setScore, initEntry, finalizeEntry, sortDesc,
      insertDesc, rowA, rowBint, rowBsk]

/-- C1 witness: the general law instantiated on the worked example's inputs at
candidate A, whose working-map entry has demographics score 0.5 and zero
elsewhere. -/
theorem C1_composite_score_weighted_witness :
    (finalizeEntry entryA).FinalScore =
      (20/100) * catScore [rowA] "A" + (60/100) * catScore [rowBint] "A" +
        (10/100) * catScore [rowBsk] "A" :=
  C1_composite_score_weighted.1 [rowA] [rowBint] [rowBsk] "A" entryA
    (by norm_num +decide [mfind, combineUsers, add_rec_data, addRec,
      updateEntry, setScore, initEntry, rowA, rowBint, rowBsk, entryA,
      List.find?])

/-- C2: the returned list is the union of the three category lists' candidates
sorted by composite score descending and truncated to `final_limit`: its length
is at most the limit; every returned row's candidate occurs in some category
list (so a candidate absent from all three never appears); the output is
exactly the first `final_limit` rows of the descending-sorted full list, which
contains every union candidate (exclusion only by the window); and on the
5-candidate strictly-descending example with limit 2, the output is exactly the
two highest-scoring candidates. -/
theorem C2_union_sorted_truncated :
    (∀ (d i s : List RecRow) (n : Nat),
        (get_recommendations_attendee d i s n).length ≤ n) ∧
    (∀ (d i s : List RecRow) (n : Nat) (f : FinalRow),
        f ∈ get_recommendations_attendee d i s n →
        ∃ r ∈ d ++ i ++ s, r.UserID = f.UserID) ∧
    (∀ (d i s : List RecRow) (n : Nat),
        get_recommendations_attendee d i s n =
          (sortDesc ((combineUsers d i s).map finalizeEntry)).take n ∧
        (get_recommendations_attendee d i s n).Pairwise
          (fun a b => b.FinalScore ≤ a.FinalScore)) ∧
    (∀ (d i s : List RecRow) (u : String),
        (∃ r ∈ d ++ i ++ s, r.UserID = u) →
        ∃ f ∈ sortDesc ((combineUsers d i s).map finalizeEntry),
          f.UserID = u) ∧
    (get_recommendations_attendee [rowU1, rowU2, rowU3, rowU4, rowU5] [] [] 2).map
        (fun r => (r.UserID, r.FinalScore)) = [("u1", 5), ("u2", 4)] := by
  refine ⟨?_, ?_, ?_, ?_, ?_⟩
  · intro d i s n
    exact List.length_take_le n _
  · intro d i s n f hf
    have hf1 : f ∈ sortDesc ((combineUsers d i s).map finalizeEntry) :=
      (List.take_sublist n _).subset hf
    obtain ⟨a, ha, hfa⟩ := List.mem_map.mp ((mem_sortDesc f _).mp hf1)
    have hsome : (mfind (combineUsers d i s) a.UserID).isSome :=
      List.find?_isSome.mpr ⟨a, ha, by simp⟩
    obtain ⟨r, hr, hru⟩ :=
      (mfind_combineUsers_isSome_iff d i s a.UserID).mp hsome
    refine ⟨r, hr, ?_⟩
    rw [hru, ← hfa, finalizeEntry_UserID]
  · intro d i s n
    exact ⟨rfl, (pairwise_sortDesc _).sublist (List.take_sublist n _)⟩
  · intro d i s u hex
    have hsome := (mfind_combineUsers_isSome_iff d i s u).mpr hex
    obtain ⟨e, he⟩ := Option.isSome_iff_exists.mp hsome
    have hmem : e ∈ combineUsers d i s := List.mem_of_find?_eq_some he
    have hu : e.UserID = u := by simpa using List.find?_some he
    exact ⟨finalizeEntry e,
      (mem_sortDesc _ _).mpr (List.mem_map.mpr ⟨e, hmem, rfl⟩),
      by rw [finalizeEntry_UserID, hu]⟩
  · norm_num +decide [get_recommendations_attendee, combineUsers, add_rec_data,
      addRec, updateEntry, setScore, initEntry, finalizeEntry, sortDesc,
      insertDesc, rowU1, rowU2, rowU3, rowU4, rowU5]

/-- C2 witness: the membership conjunct applied to the top output row of the
5-candidate example, and the no-starvation conjunct applied to its
lowest-scoring candidate `u5`, which is still present in the full sorted list. -/
theorem C2_union_sorted_truncated_witness :
    (∃ r ∈ [rowU1, rowU2, rowU3, rowU4, rowU5] ++ [] ++ [],
        r.UserID = outU1.UserID) ∧
    (∃ f ∈ sortDesc
        ((combineUsers [rowU1, rowU2, rowU3, rowU4, rowU5] [] []).map
          finalizeEntry), f.UserID = "u5") := by
  constructor
  · exact C2_union_sorted_truncated.2.1 [rowU1, rowU2, rowU3, rowU4, rowU5]
      [] [] 2 outU1
      (by norm_num +decide [get_recommendations_attendee, combineUsers,
        add_rec_data, addRec, updateEntry, setScore, initEntry, finalizeEntry,
        sortDesc, insertDesc, rowU1, rowU2, rowU3, rowU4, rowU5, outU1])
  · exact C2_union_sorted_truncated.2.2.2.1 [rowU1, rowU2, rowU3, rowU4, rowU5]
      [] [] "u5" ⟨rowU5, by simp, rfl⟩

/-- C8: the aggregator is deterministic — for fixed per-category input lists,
two calls return the same rows, the same candidate ordering and the same
composite-score values; the embedding of the endpoint is a pure function of
the three fetched lists and the limit, with no other input. -/
theorem C8_aggregate_deterministic :
    ∀ (d1 i1 s1 d2 i2 s2 : List RecRow) (n1 n2 : Nat),
      d1 = d2 → i1 = i2 → s1 = s2 → n1 = n2 →
      get_recommendations_attendee d1 i1 s1 n1 =
        get_recommendations_attendee d2 i2 s2 n2 ∧
      (get_recommendations_attendee d1 i1 s1 n1).map (fun f => f.UserID) =
        (get_recommendations_attendee d2 i2 s2 n2).map (fun f => f.UserID) ∧
      (get_recommendations_attendee d1 i1 s1 n1).map (fun f => f.FinalScore) =
        (get_recommendations_attendee d2 i2 s2 n2).map (fun f => f.FinalScore) := by
  intro d1 i1 s1 d2 i2 s2 n1 n2 hd hi hs hn
  subst hd; subst hi; subst hs; subst hn
  exact ⟨rfl, rfl, rfl⟩

/-- C8 witness: two repeated calls on the worked example's inputs coincide. -/
theorem C8_aggregate_deterministic_witness :
    get_recommendations_attendee [rowA] [rowBint] [rowBsk] 10 =
      get_recommendations_attendee [rowA] [rowBint] [rowBsk] 10 ∧
    (get_recommendations_attendee [rowA] [rowBint] [rowBsk] 10).map
        (fun f => f.UserID) =
      (get_recommendations_attendee [rowA] [rowBint] [rowBsk] 10).map
        (fun f => f.UserID) ∧
    (get_recommendations_attendee [rowA] [rowBint] [rowBsk] 10).map
        (fun f => f.FinalScore) =
      (get_recommendations_attendee [rowA] [rowBint] [rowBsk] 10).map
        (fun f => f.FinalScore) :=
  C8_aggregate_deterministic [rowA] [rowBint] [rowBsk] [rowA] [rowBint]
    [rowBsk] 10 10 rfl rfl rfl rfl

/-- C9: for every output row and every evidence field, the evidence list has
no duplicates, and a string belongs to it exactly when some category row for
that candidate reported it — the per-field deduplicated union of all category
evidence. -/
theorem C9_evidence_dedup_union :
    ∀ (d i s : List RecRow) (n : Nat) (f : FinalRow) (k : EvKey),
      f ∈ get_recommendations_attendee d i s n →
      (evFinal k f).Nodup ∧
      ∀ str, (str ∈ evFinal k f ↔
        ∃ r ∈ d ++ i ++ s, r.UserID = f.UserID ∧ str ∈ evRec k r) := by
  intro d i s n f k hf
  have hf1 : f ∈ sortDesc ((combineUsers d i s).map finalizeEntry) :=
    (List.take_sublist n _).subset hf
  obtain ⟨a, ha, hfa⟩ := List.mem_map.mp ((mem_sortDesc f _).mp hf1)
  subst hfa
  have hfind : mfind (combineUsers d i s) a.UserID = some a :=
    mfind_of_mem_nodup _ a (keys_nodup_combineUsers d i s) ha
  obtain ⟨r, rest, hfilter, _, _, _, _, _, _, _, hev⟩ :=
    mfind_combineUsers_char d i s a.UserID a hfind
  refine ⟨?_, ?_⟩
  · rw [evFinal_finalizeEntry]
    exact List.nodup_dedup _
  · intro str
    rw [evFinal_finalizeEntry, List.mem_dedup, hev k, List.mem_flatMap]
    constructor
    · rintro ⟨r0, hr0, hstr⟩
      have hm := List.mem_filter.mp hr0
      refine ⟨r0, hm.1, ?_, hstr⟩
      rw [finalizeEntry_UserID]
      simpa using hm.2
    · rintro ⟨r0, hmem0, hid0, hstr⟩
      rw [finalizeEntry_UserID] at hid0
      exact ⟨r0, List.mem_filter.mpr ⟨hmem0, by simpa using hid0⟩, hstr⟩

/-- C9 witness: demographics and interests both report `"Acme Corp"` as
shared-company evidence for candidate X; the merged evidence list of the
output row contains it once (no duplicates, membership matches the union). -/
theorem C9_evidence_dedup_union_witness :
    (evFinal .sharedCompanies outX).Nodup ∧
    ∀ str, (str ∈ evFinal .sharedCompanies outX ↔
      ∃ r ∈ [rowXd] ++ [rowXi] ++ [], r.UserID = outX.UserID ∧
        str ∈ evRec .sharedCompanies r) :=
  C9_evidence_dedup_union [rowXd] [rowXi] [] 5 outX .sharedCompanies
    (by norm_num +decide [get_recommendations_attendee, combineUsers,
      add_rec_data, addRec, updateEntry, setScore, initEntry, finalizeEntry,
      sortDesc, insertDesc, rowXd, rowXi, outX, List.dedup])

/-- C10: when a candidate appears in several categories, the display fields
RecommendedUser, Role and YearsExperience of its working-map entry come from
its first occurrence across the three category lists in the fixed processing
order demographics, interests, skills — and a later `add_rec_data` call leaves
them (and the other categories' scores) unchanged, only assigning that
category's score entry and appending to the evidence lists. -/
theorem C10_display_fields_first_category :
    (∀ (d i s : List RecRow) (u : String) (e : AggEntry),
        mfind (combineUsers d i s) u = some e →
        ∃ r rest, (d ++ i ++ s).filter (fun x => x.UserID = u) = r :: rest ∧
          e.RecommendedUser = r.RecommendedUser ∧
          e.Role = r.Role ∧
          e.YearsExperience = r.YearsExperience) ∧
    (∀ (m : List AggEntry) (recs : List RecRow) (c : Category) (u : String)
        (e0 : AggEntry), mfind m u = some e0 →
        ∃ e, mfind (add_rec_data m recs c) u = some e ∧
          e.UserID = e0.UserID ∧
          e.RecommendedUser = e0.RecommendedUser ∧
          e.Role = e0.Role ∧
          e.YearsExperience = e0.YearsExperience ∧
          (∀ c', c' ≠ c → getScore e c' = getScore e0 c') ∧
          (∀ k, evRaw k e = evRaw k e0 ++
            (recs.filter (fun r => r.UserID = u)).flatMap (evRec k))) := by
  constructor
  · intro d i s u e h
    obtain ⟨r, rest, hfil, _, h1, h2, h3, _⟩ :=
      mfind_combineUsers_char d i s u e h
    exact ⟨r, rest, hfil, h1, h2, h3⟩
  · intro m recs c u e0 h
    refine ⟨applyRecs c e0 (recs.filter (fun r => r.UserID = u)),
      mfind_add_rec_data_some c recs m u e0 h, ?_, ?_, ?_, ?_, ?_, ?_⟩
    · exact applyRecs_UserID c e0 _
    · exact applyRecs_RecommendedUser c e0 _
    · exact applyRecs_Role c e0 _
    · exact applyRecs_YearsExperience c e0 _
    · intro c' hc'
      exact getScore_applyRecs_ne e0 _ hc'
    · intro k
      exact evRaw_applyRecs k c e0 _

/-- C10 witness: candidate Y occurs in demographics (display "Yann Demo",
Role Engineer, YearsExperience 5) and in skills with conflicting display
fields; its working-map entry keeps the demographics display data. -/
theorem C10_display_fields_first_category_witness :
    ∃ r rest,
      ([rowYdemo] ++ ([] : List RecRow) ++ [rowYskill]).filter
          (fun x => x.UserID = "Y") =
        r :: rest ∧
      entryY.RecommendedUser = r.RecommendedUser ∧
      entryY.Role = r.Role ∧
      entryY.YearsExperience = r.YearsExperience :=
  C10_display_fields_first_category.1 [rowYdemo] [] [rowYskill] "Y" entryY
    (by norm_num +decide [mfind, combineUsers, add_rec_data, addRec,
      updateEntry, setScore, initEntry, rowYdemo, rowYskill, entryY,
      List.find?])

/-! ## Canonicalizer lemmas -/

theorem mem_insertAsc {α : Type} (key : α → ℚ) (a b : α) (l : List α) :
    a ∈ insertAsc key b l ↔ a = b ∨ a ∈ l := by
  induction l with
  | nil => simp [insertAsc]
  | cons x xs ih =>
      by_cases h : key b ≤ key x
      · simp [insertAsc, if_pos h]
      · simp [insertAsc, if_neg h, ih]
        tauto

theorem sortAsc_cons {α : Type} (key : α → ℚ) (x : α) (xs : List α) :
    sortAsc key (x :: xs) = insertAsc key x (sortAsc key xs) := rfl

theorem mem_sortAsc {α : Type} (key : α → ℚ) (a : α) (l : List α) :
    a ∈ sortAsc key l ↔ a ∈ l := by
  induction l with
  | nil => simp [sortAsc]
  | cons x xs ih =>
      rw [sortAsc_cons, mem_insertAsc]
      simp [ih]

theorem insertAsc_ne_nil {α : Type} (key : α → ℚ) (a : α) (l : List α) :
    insertAsc key a l ≠ [] := by
  cases l with
  | nil => simp [insertAsc]
  | cons x xs =>
      rw [insertAsc]
      split <;> simp

theorem sortAsc_eq_nil_iff {α : Type} (key : α → ℚ) (l : List α) :
    sortAsc key l = [] ↔ l = [] := by
  cases l with
  | nil => simp [sortAsc]
  | cons x xs => simp [sortAsc_cons, insertAsc_ne_nil]

theorem vectorTop5_eq_nil_iff (emb : List ℚ) (table : List Entity) :
    vectorTop5 emb table = [] ↔ table = [] := by
  unfold vectorTop5
  rw [List.take_eq_nil_iff]
  simp [sortAsc_eq_nil_iff]

theorem mem_of_mem_vectorTop5 {emb : List ℚ} {table : List Entity} {e : Entity}
    (h : e ∈ vectorTop5 emb table) : e ∈ table :=
  (mem_sortAsc _ e table).mp ((List.take_sublist 5 _).subset h)

theorem foc_si_cases (embed : String → List ℚ) (cat : Catalog) (x et : String) :
    ((find_or_create_skill_interest embed cat x et).2 = cat ∧
      (find_or_create_skill_interest embed cat x et).1.id ∈
        tableIds cat .si) ∨
    ((find_or_create_skill_interest embed cat x et).1.id = cat.nextId ∧
      (find_or_create_skill_interest embed cat x et).2.nextId =
        cat.nextId + 1 ∧
      tableIds (find_or_create_skill_interest embed cat x et).2 .si =
        tableIds cat .si ++ [cat.nextId] ∧
      ∀ t, t ≠ Table.si →
        tableIds (find_or_create_skill_interest embed cat x et).2 t =
          tableIds cat t) := by
  cases htop : vectorTop5 (embed x) cat.skill_interests with
  | nil =>
      right
      refine ⟨?_, ?_, ?_, ?_⟩
      · simp [find_or_create_skill_interest, htop]
      · simp [find_or_create_skill_interest, htop]
      · simp [find_or_create_skill_interest, htop, tableIds]
      · intro t ht
        cases t with
        | si => exact absurd rfl ht
        | co => simp [find_or_create_skill_interest, htop, tableIds]
        | jr => simp [find_or_create_skill_interest, htop, tableIds]
        | lo => simp [find_or_create_skill_interest, htop, tableIds]
  | cons t rest =>
      left
      cases hfind : cat.skill_interests.find? (fun e => e.name = x) with
      | some e =>
          refine ⟨by simp [find_or_create_skill_interest, htop, hfind], ?_⟩
          have he := List.mem_of_find?_eq_some hfind
          simp only [find_or_create_skill_interest, htop, hfind]
          exact List.mem_map.mpr ⟨e, he, rfl⟩
      | none =>
          refine ⟨by simp [find_or_create_skill_interest, htop, hfind], ?_⟩
          have ht : t ∈ vectorTop5 (embed x) cat.skill_interests := by
            rw [htop]; exact List.mem_cons_self t rest
          have hmem := mem_of_mem_vectorTop5 ht
          simp only [find_or_create_skill_interest, htop, hfind]
          exact List.mem_map.mpr ⟨t, hmem, rfl⟩

theorem foc_company_cases (cat : Catalog) (x : String) :
    ((find_or_create_company cat x).2 = cat ∧
      (find_or_create_company cat x).1.id ∈ tableIds cat .co) ∨
    ((find_or_create_company cat x).1.id = cat.nextId ∧
      (find_or_create_company cat x).2.nextId = cat.nextId + 1 ∧
      tableIds (find_or_create_company cat x).2 .co =
        tableIds cat .co ++ [cat.nextId] ∧
      ∀ t, t ≠ Table.co →
        tableIds (find_or_create_company cat x).2 t = tableIds cat t) := by
  cases hfind : cat.companies.find? (fun e => e.name = x) with
  | some e =>
      left
      refine ⟨by simp [find_or_create_company, hfind], ?_⟩
      have he := List.mem_of_find?_eq_some hfind
      simp only [find_or_create_company, hfind]
      exact List.mem_map.mpr ⟨e, he, rfl⟩
  | none =>
      right
      refine ⟨?_, ?_, ?_, ?_⟩
      · simp [find_or_create_company, hfind]
      · simp [find_or_create_company, hfind]
      · simp [find_or_create_company, hfind, tableIds]
      · intro t ht
        cases t with
        | co => exact absurd rfl ht
        | si => simp [find_or_create_company, hfind, tableIds]
        | jr => simp [find_or_create_company, hfind, tableIds]
        | lo => simp [find_or_create_company, hfind, tableIds]

theorem foc_job_role_cases (cat : Catalog) (x : String) :
    ((find_or_create_job_role cat x).2 = cat ∧
      (find_or_create_job_role cat x).1.id ∈ tableIds cat .jr) ∨
    ((find_or_create_job_role cat x).1.id = cat.nextId ∧
      (find_or_create_job_role cat x).2.nextId = cat.nextId + 1 ∧
      tableIds (find_or_create_job_role cat x).2 .jr =
        tableIds cat .jr ++ [cat.nextId] ∧
      ∀ t, t ≠ Table.jr →
        tableIds (find_or_create_job_role cat x).2 t = tableIds cat t) := by
  cases hfind : cat.job_roles.find? (fun e => e.name = x) with
  | some e =>
      left
      refine ⟨by simp [find_or_create_job_role, hfind], ?_⟩
      have he := List.mem_of_find?_eq_some hfind
      simp only [find_or_create_job_role, hfind]
      exact List.mem_map.mpr ⟨e, he, rfl⟩
  | none =>
      right
      refine ⟨?_, ?_, ?_, ?_⟩
      · simp [find_or_create_job_role, hfind]
      · simp [find_or_create_job_role, hfind]
      · simp [find_or_create_job_role, hfind, tableIds]
      · intro t ht
        cases t with
        | jr => exact absurd rfl ht
        | si => simp [find_or_create_job_role, hfind, tableIds]
        | co => simp [find_or_create_job_role, hfind, tableIds]
        | lo => simp [find_or_create_job_role, hfind, tableIds]

theorem foc_location_cases (embed : String → List ℚ) (cat : Catalog)
    (x : String) :
    ((find_or_create_location embed cat x).2 = cat ∧
      (find_or_create_location embed cat x).1.id ∈ tableIds cat .lo) ∨
    ((find_or_create_location embed cat x).1.id = cat.nextId ∧
      (find_or_create_location embed cat x).2.nextId = cat.nextId + 1 ∧
      tableIds (find_or_create_location embed cat x).2 .lo =
        tableIds cat .lo ++ [cat.nextId] ∧
      ∀ t, t ≠ Table.lo →
        tableIds (find_or_create_location embed cat x).2 t = tableIds cat t) := by
  cases hfind : cat.locations.find? (fun e => e.name = x) with
  | some e =>
      left
      refine ⟨by simp [find_or_create_location, hfind], ?_⟩
      have he := List.mem_of_find?_eq_some hfind
      simp only [find_or_create_location, hfind]
      exact List.mem_map.mpr ⟨e, he, rfl⟩
  | none =>
      cases htake : (sortAsc (fun e => l2sq (e.embedding.getD []) (embed x))
          (cat.locations.filter (fun e => e.embedding.isSome))).take 5 with
      | cons t rest =>
          left
          refine ⟨by simp [find_or_create_location, hfind, htake], ?_⟩
          have ht : t ∈ (sortAsc (fun e => l2sq (e.embedding.getD []) (embed x))
              (cat.locations.filter (fun e => e.embedding.isSome))).take 5 := by
            rw [htake]; exact List.mem_cons_self t rest
          have ht2 := (List.take_sublist 5 _).subset ht
          have ht3 := (mem_sortAsc _ t _).mp ht2
          have ht4 := (List.mem_filter.mp ht3).1
          simp only [find_or_create_location, hfind, htake]
          exact List.mem_map.mpr ⟨t, ht4, rfl⟩
      | nil =>
          right
          refine ⟨?_, ?_, ?_, ?_⟩
          · simp [find_or_create_location, hfind, htake]
          · simp [find_or_create_location, hfind, htake]
          · simp [find_or_create_location, hfind, htake, tableIds]
          · intro t ht
            cases t with
            | lo => exact absurd rfl ht
            | si => simp [find_or_create_location, hfind, htake, tableIds]
            | co => simp [find_or_create_location, hfind, htake, tableIds]
            | jr => simp [find_or_create_location, hfind, htake, tableIds]

theorem resolve_cases (embed : String → List ℚ) (cat : Catalog) (x : String)
    (k : Kind) :
    ((resolve embed cat x k).2 = cat ∧
      (resolve embed cat x k).1.id ∈ tableIds cat (kindTable k)) ∨
    ((resolve embed cat x k).1.id = cat.nextId ∧
      (resolve embed cat x k).2.nextId = cat.nextId + 1 ∧
      tableIds (resolve embed cat x k).2 (kindTable k) =
        tableIds cat (kindTable k) ++ [cat.nextId] ∧
      ∀ t, t ≠ kindTable k →
        tableIds (resolve embed cat x k).2 t = tableIds cat t) := by
  cases k with
  | skill => exact foc_si_cases embed cat x "skill"
  | interest => exact foc_si_cases embed cat x "interest"
  | company => exact foc_company_cases cat x
  | job_role => exact foc_job_role_cases cat x
  | location => exact foc_location_cases embed cat x

theorem bounded_tables {cat : Catalog} (h : IdsBounded cat) (t : Table) :
    ∀ i ∈ tableIds cat t, i < cat.nextId := by
  obtain ⟨h1, h2, h3, h4⟩ := h
  cases t with
  | si => exact h1
  | co => exact h2
  | jr => exact h3
  | lo => exact h4

theorem disjoint_tables {cat : Catalog} (h : IdsDisjoint cat) {t t' : Table}
    (hne : t ≠ t') {i : Nat} (hi : i ∈ tableIds cat t) :
    i ∉ tableIds cat t' := by
  obtain ⟨h1, h2, h3⟩ := h
  cases t with
  | si =>
      cases t' with
      | si => exact absurd rfl hne
      | co => exact (h1 i hi).1
      | jr => exact (h1 i hi).2.1
      | lo => exact (h1 i hi).2.2
  | co =>
      cases t' with
      | si => exact fun hmem => (h1 i hmem).1 hi
      | co => exact absurd rfl hne
      | jr => exact (h2 i hi).1
      | lo => exact (h2 i hi).2
  | jr =>
      cases t' with
      | si => exact fun hmem => (h1 i hmem).2.1 hi
      | co => exact fun hmem => (h2 i hmem).1 hi
      | jr => exact absurd rfl hne
      | lo => exact h3 i hi
  | lo =>
      cases t' with
      | si => exact fun hmem => (h1 i hmem).2.2 hi
      | co => exact fun hmem => (h2 i hmem).2 hi
      | jr => exact fun hmem => h3 i hmem hi
      | lo => exact absurd rfl hne

/-! ## Claim theorems: canonicalizer and endpoint error path -/

/-- C3: the skill/interest resolver creates a new entity — fresh id from the
generator, name equal to the raw text, embedding computed from the raw text —
exactly when the vector query returns zero candidates (equivalently, the
catalog table for that family is empty); whenever the vector result set is
non-empty the state is unchanged (nothing is created, no error), and with no
lexical winner the rank-0 vector match is returned. -/
theorem C3_create_iff_vector_empty :
    ∀ (embed : String → List ℚ) (cat : Catalog) (x et : String),
      (vectorTop5 (embed x) cat.skill_interests = [] ↔
        cat.skill_interests = []) ∧
      (vectorTop5 (embed x) cat.skill_interests = [] →
        find_or_create_skill_interest embed cat x et =
          (⟨cat.nextId, x⟩,
            { cat with
                skill_interests :=
                  cat.skill_interests ++ [⟨cat.nextId, x, embed x⟩]
                nextId := cat.nextId + 1 })) ∧
      (vectorTop5 (embed x) cat.skill_interests ≠ [] →
        (find_or_create_skill_interest embed cat x et).2 = cat) ∧
      (∀ t rest, vectorTop5 (embed x) cat.skill_interests = t :: rest →
        cat.skill_interests.find? (fun e => e.name = x) = none →
        find_or_create_skill_interest embed cat x et = (⟨t.id, t.name⟩, cat)) := by
  intro embed cat x et
  refine ⟨vectorTop5_eq_nil_iff _ _, ?_, ?_, ?_⟩
  · intro h
    simp [find_or_create_skill_interest, h]
  · intro h
    cases htop : vectorTop5 (embed x) cat.skill_interests with
    | nil => exact absurd htop h
    | cons t rest =>
        cases hfind : cat.skill_interests.find? (fun e => e.name = x) with
        | some e => simp [find_or_create_skill_interest, htop, hfind]
        | none => simp [find_or_create_skill_interest, htop, hfind]
  · intro t rest htop hfind
    simp [find_or_create_skill_interest, htop, hfind]

/-- C3 witness: on the empty catalog, resolving `"Go"` creates the entity with
the fresh id, name `"Go"` and the embedding of `"Go"`; on the non-empty
catalog `cat6`, resolving `"Java"` leaves the state unchanged. -/
theorem C3_create_iff_vector_empty_witness :
    find_or_create_skill_interest embedT cat0 "Go" "skill" =
      (⟨cat0.nextId, "Go"⟩,
        { cat0 with
            skill_interests :=
              cat0.skill_interests ++ [⟨cat0.nextId, "Go", embedT "Go"⟩]
            nextId := cat0.nextId + 1 }) ∧
    (find_or_create_skill_interest embedT cat6 "Java" "skill").2 = cat6 := by
  constructor
  · exact (C3_create_iff_vector_empty embedT cat0 "Go" "skill").2.1 rfl
  · exact (C3_create_iff_vector_empty embedT cat6 "Java" "skill").2.2.1
      (by simp [vectorTop5_eq_nil_iff, cat6])

/-- C4 counterexample: in catalog `cat6` the entity named exactly `"Python"`
is outside the 5 vector-nearest candidates of `embedT "Python"`. The code's
exact-match query runs over the whole table and returns it (id 6); the
spec-modelled variant restricted to the 5 vector-nearest candidates returns
the rank-0 vector match (id 1) instead, so the claim's restriction to the
candidate set does not describe the code. -/
theorem C4_lexical_restricted_counterexample :
    (find_or_create_skill_interest embedT cat6 "Python" "skill").1 =
      ⟨6, "Python"⟩ ∧
    (resolveSpecLexicalTop5 embedT cat6 "Python").1 = ⟨1, "n1"⟩ ∧
    (find_or_create_skill_interest embedT cat6 "Python" "skill").1 ≠
      (resolveSpecLexicalTop5 embedT cat6 "Python").1 := by
  refine ⟨?_, ?_, ?_⟩ <;>
    norm_num +decide [find_or_create_skill_interest, resolveSpecLexicalTop5,
      vectorTop5, sortAsc, insertAsc, l2sq, embedT, cat6, List.find?]

/-- C4 amended: the exact-lexical-match check is a plain name-equality query
over the entire skill/interest table (not restricted to the 5 vector-nearest
candidates): whenever the table is non-empty and some row's name equals the
raw text, that row is returned regardless of its vector-distance rank. -/
theorem C4_exact_match_whole_table :
    ∀ (embed : String → List ℚ) (cat : Catalog) (x et : String) (e : Entity),
      cat.skill_interests ≠ [] →
      cat.skill_interests.find? (fun e0 => e0.name = x) = some e →
      find_or_create_skill_interest embed cat x et = (⟨e.id, e.name⟩, cat) := by
  intro embed cat x et e hne hfind
  cases htop : vectorTop5 (embed x) cat.skill_interests with
  | nil => exact absurd ((vectorTop5_eq_nil_iff _ _).mp htop) hne
  | cons t rest => simp [find_or_create_skill_interest, htop, hfind]

/-- C4 witness: the catalog holds an embedding-close near-duplicate
`"Pyhton"` (vector rank 0) and a vector-far entity named exactly `"Python"`;
resolving `"Python"` returns the exact-name entity, not the embedding-nearest
one. -/
theorem C4_exact_match_whole_table_witness :
    find_or_create_skill_interest embedT catPy "Python" "skill" =
      (⟨2, "Python"⟩, catPy) := by
  have h := C4_exact_match_whole_table embedT catPy "Python" "skill"
    ⟨2, "Python", [50]⟩ (by simp [catPy])
    (by norm_num +decide [catPy, List.find?])
  simpa using h

/-- C5 counterexample: skills and interests are resolved against the one
shared skill/interest table with no kind filtering, so for the distinct kinds
`skill` and `interest` the two sequential resolutions of `"Chess"` return the
same entity id — refuting the claim that any two distinct kinds never share a
returned id. -/
theorem C5_kind_partition_counterexample :
    Kind.skill ≠ Kind.interest ∧
    (resolve embedT cat0 "Chess" Kind.skill).1.id =
      (resolve embedT (resolve embedT cat0 "Chess" Kind.skill).2 "Chess"
        Kind.interest).1.id := by
  refine ⟨by decide, ?_⟩
  norm_num +decide [resolve, find_or_create_skill_interest, vectorTop5,
    sortAsc, insertAsc, l2sq, embedT, cat0, List.find?]

/-- C5 amended: the matching space is partitioned by physical table — the four
tables are skill/interest (shared), company, job role, location. For kinds
that live in different tables, each resolution only ever returns an id of its
own table, and on a well-formed catalog two sequential resolutions of the same
text under table-distinct kinds return distinct ids (e.g. `"Berlin"` as
location versus company). -/
theorem C5_distinct_tables_distinct_ids :
    ∀ (embed : String → List ℚ) (cat : Catalog) (x : String) (k1 k2 : Kind),
      CatalogWF cat → kindTable k1 ≠ kindTable k2 →
      (resolve embed cat x k1).1.id ∈
        tableIds (resolve embed cat x k1).2 (kindTable k1) ∧
      (resolve embed (resolve embed cat x k1).2 x k2).1.id ∈
        tableIds (resolve embed (resolve embed cat x k1).2 x k2).2
          (kindTable k2) ∧
      (resolve embed cat x k1).1.id ≠
        (resolve embed (resolve embed cat x k1).2 x k2).1.id := by
  intro embed cat x k1 k2 hwf hne
  obtain ⟨hb, hd⟩ := hwf
  rcases resolve_cases embed cat x k1 with ⟨hs1, hm1⟩ | ⟨hid1, hn1, htab1, hoth1⟩
  · rw [hs1]
    rcases resolve_cases embed cat x k2 with ⟨hs2, hm2⟩ | ⟨hid2, hn2, htab2, hoth2⟩
    · refine ⟨hm1, by rw [hs2]; exact hm2, ?_⟩
      intro heq
      exact disjoint_tables hd hne hm1 (heq.symm ▸ hm2)
    · refine ⟨hm1, ?_, ?_⟩
      · rw [htab2, hid2]
        exact List.mem_append_right _ (List.mem_singleton.mpr rfl)
      · intro heq
        have hlt := bounded_tables hb (kindTable k1) _ hm1
        rw [heq, hid2] at hlt
        exact lt_irrefl _ hlt
  · have hmem1 : (resolve embed cat x k1).1.id ∈
        tableIds (resolve embed cat x k1).2 (kindTable k1) := by
      rw [htab1, hid1]
      exact List.mem_append_right _ (List.mem_singleton.mpr rfl)
    rcases resolve_cases embed (resolve embed cat x k1).2 x k2 with
      ⟨hs2, hm2⟩ | ⟨hid2, hn2, htab2, hoth2⟩
    · have hm2' : (resolve embed (resolve embed cat x k1).2 x k2).1.id ∈
          tableIds cat (kindTable k2) := by
        rw [← hoth1 (kindTable k2) (Ne.symm hne)]
        exact hm2
      refine ⟨hmem1, by rw [hs2]; exact hm2, ?_⟩
      intro heq
      have hlt := bounded_tables hb (kindTable k2) _ hm2'
      rw [← heq, hid1] at hlt
      exact lt_irrefl _ hlt
    · refine ⟨hmem1, ?_, ?_⟩
      · rw [htab2, hid2]
        exact List.mem_append_right _ (List.mem_singleton.mpr rfl)
      · rw [hid1, hid2, hn1]
        exact Nat.ne_of_lt (Nat.lt_succ_self _)

/-- C5 witness: on the (well-formed) empty catalog, resolving `"Berlin"` as a
location and then as a company returns two distinct ids. -/
theorem C5_distinct_tables_distinct_ids_witness :
    (resolve embedT cat0 "Berlin" Kind.location).1.id ≠
      (resolve embedT (resolve embedT cat0 "Berlin" Kind.location).2 "Berlin"
        Kind.company).1.id :=
  (C5_distinct_tables_distinct_ids embedT cat0 "Berlin" .location .company
    (by simp [CatalogWF, IdsBounded, IdsDisjoint, tableIds, cat0])
    (by decide)).2.2

/-- C6: resolve is idempotent — for every raw text and kind, a second call run
against the catalog state left by the first returns the same entity id. -/
theorem C6_resolve_idempotent :
    ∀ (embed : String → List ℚ) (cat : Catalog) (x : String) (k : Kind),
      (resolve embed (resolve embed cat x k).2 x k).1.id =
        (resolve embed cat x k).1.id := by
  intro embed cat x k
  cases k with
  | company =>
      show (find_or_create_company (find_or_create_company cat x).2 x).1.id =
        (find_or_create_company cat x).1.id
      cases hfind : cat.companies.find? (fun e => e.name = x) with
      | some e => simp [find_or_create_company, hfind]
      | none =>
          have hfind2 : ((cat.companies ++ [⟨cat.nextId, x, []⟩] :
              List Entity).find? (fun e => e.name = x)) =
              some ⟨cat.nextId, x, []⟩ := by
            rw [List.find?_append, hfind]
            simp [List.find?_cons]
          simp [find_or_create_company, hfind, hfind2]
  | job_role =>
      show (find_or_create_job_role (find_or_create_job_role cat x).2 x).1.id =
        (find_or_create_job_role cat x).1.id
      cases hfind : cat.job_roles.find? (fun e => e.name = x) with
      | some e => simp [find_or_create_job_role, hfind]
      | none =>
          have hfind2 : ((cat.job_roles ++ [⟨cat.nextId, x, []⟩] :
              List Entity).find? (fun e => e.name = x)) =
              some ⟨cat.nextId, x, []⟩ := by
            rw [List.find?_append, hfind]
            simp [List.find?_cons]
          simp [find_or_create_job_role, hfind, hfind2]
  | location =>
      show (find_or_create_location embed
        (find_or_create_location embed cat x).2 x).1.id =
        (find_or_create_location embed cat x).1.id
      cases hfind : cat.locations.find? (fun e => e.name = x) with
      | some e => simp [find_or_create_location, hfind]
      | none =>
          cases htake : (sortAsc (fun e => l2sq (e.embedding.getD []) (embed x))
              (cat.locations.filter (fun e => e.embedding.isSome))).take 5 with
          | cons t rest =>
              have hsnd : (find_or_create_location embed cat x).2 = cat := by
                simp [find_or_create_location, hfind, htake]
              rw [hsnd]
          | nil =>
              have hfind2 : ((cat.locations ++
                  [⟨cat.nextId, x, some (embed x)⟩] : List LocEntity).find?
                  (fun e => e.name = x)) =
                  some ⟨cat.nextId, x, some (embed x)⟩ := by
                rw [List.find?_append, hfind]
                simp [List.find?_cons]
              simp [find_or_create_location, hfind, htake, hfind2]
  | skill =>
      show (find_or_create_skill_interest embed
        (find_or_create_skill_interest embed cat x "skill").2 x "skill").1.id =
        (find_or_create_skill_interest embed cat x "skill").1.id
      cases htop : vectorTop5 (embed x) cat.skill_interests with
      | cons t rest =>
          have hsnd : (find_or_create_skill_interest embed cat x "skill").2 =
              cat := by
            cases hfind : cat.skill_interests.find? (fun e => e.name = x) with
            | some e => simp [find_or_create_skill_interest, htop, hfind]
            | none => simp [find_or_create_skill_interest, htop, hfind]
          rw [hsnd]
      | nil =>
          have htab : cat.skill_interests = [] :=
            (vectorTop5_eq_nil_iff _ _).mp htop
          have htop2 : vectorTop5 (embed x)
              (cat.skill_interests ++ [⟨cat.nextId, x, embed x⟩]) =
              [⟨cat.nextId, x, embed x⟩] := by
            rw [htab]
            simp [vectorTop5, sortAsc, insertAsc]
          have hfind2 : ((cat.skill_interests ++ [⟨cat.nextId, x, embed x⟩] :
              List Entity).find? (fun e => e.name = x)) =
              some ⟨cat.nextId, x, embed x⟩ := by
            rw [htab]
            simp [List.find?_cons]
          simp [find_or_create_skill_interest, htop, htop2, hfind2]
  | interest =>
      show (find_or_create_skill_interest embed
        (find_or_create_skill_interest embed cat x "interest").2 x
          "interest").1.id =
        (find_or_create_skill_interest embed cat x "interest").1.id
      cases htop : vectorTop5 (embed x) cat.skill_interests with
      | cons t rest =>
          have hsnd : (find_or_create_skill_interest embed cat x "interest").2 =
              cat := by
            cases hfind : cat.skill_interests.find? (fun e => e.name = x) with
            | some e => simp [find_or_create_skill_interest, htop, hfind]
            | none => simp [find_or_create_skill_interest, htop, hfind]
          rw [hsnd]
      | nil =>
          have htab : cat.skill_interests = [] :=
            (vectorTop5_eq_nil_iff _ _).mp htop
          have htop2 : vectorTop5 (embed x)
              (cat.skill_interests ++ [⟨cat.nextId, x, embed x⟩]) =
              [⟨cat.nextId, x, embed x⟩] := by
            rw [htab]
            simp [vectorTop5, sortAsc, insertAsc]
          have hfind2 : ((cat.skill_interests ++ [⟨cat.nextId, x, embed x⟩] :
              List Entity).find? (fun e => e.name = x)) =
              some ⟨cat.nextId, x, embed x⟩ := by
            rw [htab]
            simp [List.find?_cons]
          simp [find_or_create_skill_interest, htop, htop2, hfind2]

/-- C7 counterexample: with the demographics and skills fetches succeeding and
the interests fetch raising, the endpoint surfaces the HTTP-500 error instead
of treating the failed category as empty and returning a recommendation list —
refuting the claim that a single category failure is non-fatal. -/
theorem C7_partial_failure_surfaces_error :
    recommendationsEndpoint (Except.ok [rowA]) (Except.error "timeout")
        (Except.ok ([] : List RecRow)) 100 =
      Except.error "Error fetching unified recommendations: timeout" := rfl

/-- C7 amended: when any of the three category fetches fails, the whole
aggregation is aborted and an error is surfaced to the caller (the `except`
branch raising HTTP 500); a recommendation list is returned only when all
three fetches succeed. -/
theorem C7_any_fetch_failure_aborts :
    (∀ (d i s : Except String (List RecRow)) (n : Nat),
        ((∃ e, d = Except.error e) ∨ (∃ e, i = Except.error e) ∨
          (∃ e, s = Except.error e)) →
        ∃ msg, recommendationsEndpoint d i s n = Except.error msg) ∧
    (∀ (d i s : List RecRow) (n : Nat),
        recommendationsEndpoint (Except.ok d) (Except.ok i) (Except.ok s) n =
          Except.ok (get_recommendations_attendee d i s n)) := by
  constructor
  · rintro d i s n (⟨e, rfl⟩ | ⟨e, rfl⟩ | ⟨e, rfl⟩)
    · exact ⟨_, rfl⟩
    · cases d with
      | error e0 => exact ⟨_, rfl⟩
      | ok dl => exact ⟨_, rfl⟩
    · cases d with
      | error e0 => exact ⟨_, rfl⟩
      | ok dl =>
          cases i with
          | error e0 => exact ⟨_, rfl⟩
          | ok il => exact ⟨_, rfl⟩
  · intro d i s n
    rfl

/-- C7 witness: the amended law instantiated on a concrete failing interests
fetch. -/
theorem C7_any_fetch_failure_aborts_witness :
    ∃ msg, recommendationsEndpoint (Except.ok [rowA]) (Except.error "timeout")
        (Except.ok ([] : List RecRow)) 100 = Except.error msg :=
  C7_any_fetch_failure_aborts.1 _ _ _ 100 (Or.inr (Or.inl ⟨"timeout", rfl⟩))
